import Mathlib

/-!
QUIC-SVD cosine tree node and n-point resampling regions.

A shallow embedding of

* `mlpack/quicsvd/cosine_tree.h` (class `CosineNode`, class `CompareCosineNode`), and
* `contrib/march/n_point/efficient_resampling.cc`
  (`EfficientResampling::FindRegion_`, `EfficientResampling::SplitData_`).

Conventions of the embedding.

* A `double` that the code stores, compares, divides or converts is a value of `Double`:
  NaN, the two infinities, or a finite value.  Division rounds the exact quotient to the
  nearest binary64 value, ties to even; comparisons with NaN are false.
* The norms and cumulative norm squares of a `CosineNode` enter only through the equations
  between them that the statements assume; they are rationals.
* An `int` of `efficient_resampling.cc` is a 32-bit two's complement integer: every `int`
  operation is followed by `wrapInt`.  The indices of `cosine_tree.h` are integers.
* An access or a conversion that the source does not define is `none`.
* Pointers are optional addresses: `NULL` is `none`.
-/

/-! ## IEEE 754 binary64 values -/

/-- The values of a C++ `double`: NaN, minus infinity, a finite value, plus infinity.  The
finite values of the machine are the `fin q` with `Double.round q = fin q`; the two zeros,
which compare equal, are both `fin 0`. -/
inductive Double where
  | nan : Double
  | negInf : Double
  | fin (q : ℚ) : Double
  | posInf : Double
  deriving DecidableEq

/-- Rounding of a rational to the nearest integer, ties to the even one. -/
def roundHalfEven (x : ℚ) : Int :=
  if x - ⌊x⌋ < 1 / 2 then ⌊x⌋
  else if 1 / 2 < x - ⌊x⌋ then ⌊x⌋ + 1
  else if ⌊x⌋ % 2 = 0 then ⌊x⌋ else ⌊x⌋ + 1

namespace Double

/-- The binary exponent at which a nonzero `q` is rounded: the `e` with
`2^e ≤ |q| < 2^(e+1)`, and `-1022` for the subnormal range. -/
def exponent (q : ℚ) : Int :=
  max (Int.log 2 |q|) (-1022)

/-- The binary64 value of the exact result `q` of an operation: round to nearest with 53
significant bits, ties to even, overflowing to an infinity from `2^1024` on. -/
def round (q : ℚ) : Double :=
  if q = 0 then fin 0
  else if (2 : ℚ) ^ (1024 : Nat) ≤
      |(roundHalfEven (q / (2 : ℚ) ^ (exponent q - 52)) : ℚ) * (2 : ℚ) ^ (exponent q - 52)| then
    (if 0 < q then posInf else negInf)
  else fin ((roundHalfEven (q / (2 : ℚ) ^ (exponent q - 52)) : ℚ) * (2 : ℚ) ^ (exponent q - 52))

/-- The comparison `x < y` of two doubles: false when either is NaN. -/
def lt : Double → Double → Bool
  | nan, _ => false
  | _, nan => false
  | fin x, fin y => decide (x < y)
  | negInf, fin _ => true
  | negInf, posInf => true
  | fin _, posInf => true
  | _, _ => false

/-- The comparison `x <= y` of two doubles: false when either is NaN. -/
def le : Double → Double → Bool
  | nan, _ => false
  | _, nan => false
  | fin x, fin y => decide (x ≤ y)
  | negInf, _ => true
  | _, posInf => true
  | _, _ => false

/-- The division `x / y` of two doubles.  A zero carries no sign here, so a nonzero finite
value divided by zero is the infinity of the sign of the dividend. -/
def div : Double → Double → Double
  | nan, _ => nan
  | _, nan => nan
  | fin x, fin y =>
    if y = 0 then (if x = 0 then nan else if 0 < x then posInf else negInf)
    else round (x / y)
  | fin _, posInf => fin 0
  | fin _, negInf => fin 0
  | posInf, fin y => if 0 ≤ y then posInf else negInf
  | negInf, fin y => if 0 ≤ y then negInf else posInf
  | _, _ => nan

/-- The function `floor` of `<cmath>` on a double. -/
def floor : Double → Double
  | fin q => fin (⌊q⌋ : Int)
  | x => x

/-- The integer part of a rational, rounding toward zero. -/
def truncate (q : ℚ) : Int :=
  if 0 ≤ q then ⌊q⌋ else ⌈q⌉

/-- The conversion of a double to `int` (32 bits): the value truncated toward zero, defined
when that integer is an `int`. -/
def toInt : Double → Option Int
  | fin q =>
    if -2147483648 ≤ truncate q ∧ truncate q ≤ 2147483647 then some (truncate q) else none
  | _ => none

/-- The conversion of a double to Armadillo's `uword` (unsigned, 32 bits): the value
truncated toward zero, defined when that integer is a `uword`. -/
def toUword : Double → Option Nat
  | fin q =>
    if 0 ≤ truncate q ∧ truncate q ≤ 4294967295 then some (truncate q).toNat else none
  | _ => none

end Double

namespace QuicSVD

/-! ## Containers used by `CosineNode` -/

/-- The fastlib container `ArrayList<T>`, as the list of its elements. -/
abbrev ArrayList (α : Type) : Type := List α

/-- Element access `a[i]` of `ArrayList<T>` with a signed index: defined exactly for
`0 ≤ i < a.size()`. -/
def ArrayList.get {α : Type} (a : ArrayList α) (i : Int) : Option α :=
  if 0 ≤ i ∧ i < (a.length : Int) then a[i.toNat]? else none

/-- The access `a[i]` stays inside the array. -/
def ArrayList.InBounds {α : Type} (a : ArrayList α) (i : Int) : Prop :=
  0 ≤ i ∧ i < (a.length : Int)

instance {α : Type} (a : ArrayList α) (i : Int) : Decidable (ArrayList.InBounds a i) := by
  unfold ArrayList.InBounds; infer_instance

/-- The fastlib `Vector`: its entries. -/
abbrev Vector : Type := List ℚ

/-- Modelled from the spec: the dense matrix container (class `Matrix` of fastlib, whose
declaration is not among the sources).  The spec calls it the Column Store, "addressed by
column index", supporting "column-by-index read access"; it is the list of its columns. -/
abbrev Matrix : Type := List Vector

/-- Modelled from the spec: `Matrix::MakeColumnVector(j, col)` of fastlib, the
"column-by-index read access" of the Column Store: it makes `col` the column number `j`. -/
def Matrix.MakeColumnVector (A : Matrix) (j : Int) : Option Vector :=
  ArrayList.get A j

/-! ## `CosineNode` -/

/-- The data members of `class CosineNode`. -/
structure CosineNode where
  /-- The alias of the matrix to be approximated. -/
  A_ : Matrix
  /-- Indices of columns of matrix A in this node. -/
  origIndices_ : ArrayList Int
  /-- L2 norms of the columns in this node. -/
  norms_ : ArrayList ℚ
  /-- Cumulative sum of L2 norm squares. -/
  cum_norms_ : ArrayList ℚ
  /-- Mean vector. -/
  mean_ : Vector
  /-- Is this node the left child of its parent? -/
  isLeft_ : Bool
  /-- Error in Frobenius norm of this node, the priority of the node: a `double` that is
  stored and compared, never computed with. -/
  L2Err_ : Double
  /-- Pointer to the parent. -/
  parent_ : Option Nat
  /-- Pointer to the left child. -/
  left_ : Option Nat
  /-- Pointer to the right child. -/
  right_ : Option Nat
  deriving DecidableEq

namespace CosineNode

/-- Source: `index_t n_cols() const { return origIndices_.size(); }` -/
def n_cols (n : CosineNode) : Int :=
  (n.origIndices_.length : Int)

/-- Source:
`void GetColumn(int i_col, Vector* col) { A_.MakeColumnVector(origIndices_[i_col], col); }` -/
def GetColumn (n : CosineNode) (i_col : Int) : Option Vector :=
  match ArrayList.get n.origIndices_ i_col with
  | none => none
  | some j => Matrix.MakeColumnVector n.A_ j

/-- Source: `double getSumL2() const { return cum_norms_[n_cols()-1]; }` -/
def getSumL2 (n : CosineNode) : Option ℚ :=
  ArrayList.get n.cum_norms_ (n.n_cols - 1)

/-- Source: `const Vector& getMean() const { return mean_; }` -/
def getMean (n : CosineNode) : Vector :=
  n.mean_

/-- Source: `index_t getOrigIndex(index_t i_col) const { return origIndices_[i_col]; }` -/
def getOrigIndex (n : CosineNode) (i_col : Int) : Option Int :=
  ArrayList.get n.origIndices_ i_col

/-- Source: `void setL2Err(double L2Err) { L2Err_ = L2Err; }` -/
def setL2Err (n : CosineNode) (L2Err : Double) : CosineNode :=
  { n with L2Err_ := L2Err }

/-- Source: `bool hasLeft() const { return left_ != NULL; }` -/
def hasLeft (n : CosineNode) : Bool :=
  n.left_ != none

/-- Source: `bool hasRight() const { return right_ != NULL; }` -/
def hasRight (n : CosineNode) : Bool :=
  n.right_ != none

/-- Source: `CosineNode* getLeft() { return left_; }` -/
def getLeft (n : CosineNode) : Option Nat :=
  n.left_

/-- Source: `CosineNode* getRight() { return right_; }` -/
def getRight (n : CosineNode) : Option Nat :=
  n.right_

end CosineNode

/-- Source: `CompareCosineNode::operator()`: `return a->L2Err_ < b->L2Err_;`, the comparison
of two doubles. -/
def CompareCosineNode (a b : CosineNode) : Bool :=
  Double.lt a.L2Err_ b.L2Err_

/-- The sum of the squares of the first `k` entries of `norms`. -/
def sumSquares (norms : List ℚ) (k : Nat) : ℚ :=
  ((norms.take k).map (fun x => x ^ 2)).sum

/-- The array `cum` is the prefix sum of the squares of `norms`, one entry per column:
`cum[i] = norms[0]^2 + ... + norms[i]^2` for every `i < k`. -/
def IsCumNorms (norms cum : List ℚ) (k : Nat) : Prop :=
  norms.length = k ∧ cum.length = k ∧ ∀ i, i < k → cum[i]? = some (sumSquares norms (i + 1))

/-- A node with two columns, used to evaluate the accessors. -/
def sampleNode : CosineNode where
  A_ := [[1, 0], [0, 2], [3, 4]]
  origIndices_ := [2, 0]
  norms_ := [5, 1]
  cum_norms_ := [25, 26]
  mean_ := [2, 2]
  isLeft_ := false
  L2Err_ := Double.fin 3
  parent_ := none
  left_ := none
  right_ := none

/-- A node that owns no column. -/
def emptyNode : CosineNode where
  A_ := [[1, 0], [0, 2], [3, 4]]
  origIndices_ := []
  norms_ := []
  cum_norms_ := []
  mean_ := []
  isLeft_ := false
  L2Err_ := Double.fin 0
  parent_ := none
  left_ := none
  right_ := none

/-- The node `sampleNode` after `setL2Err(NaN)`. -/
def nanNode : CosineNode :=
  sampleNode.setL2Err Double.nan

/-- The two cut rules the spec names for `Split()`: "an even bipartition by rank, or by a
fixed threshold". -/
inductive CutPolicy where
  | evenRank : CutPolicy
  | threshold (t : ℚ) : CutPolicy
  deriving DecidableEq

/-- The number of ordered columns that go to the left child: half of them under the even
bipartition by rank, those scored below the threshold under the threshold rule. -/
def cutRank (policy : CutPolicy) (sortedScores : List ℚ) : Nat :=
  match policy with
  | CutPolicy.evenRank => sortedScores.length / 2
  | CutPolicy.threshold t => (sortedScores.takeWhile (fun c => decide (c < t))).length

/-- The columns paired with their scores, ordered by score ("Orders columns by score"). -/
def orderByScore (cosines : List ℚ) (columns : List Int) : List (ℚ × Int) :=
  List.insertionSort (fun a b => a.1 ≤ b.1) (cosines.zip columns)

/-- Modelled from the spec: `CosineNode::Split()`, declared in `cosine_tree.h` and defined in
`cosine_tree.cc`, which is not among the sources.  The result is the pair of column-index
lists handed to the left and to the right child; `none` means that the node stays a leaf.
Following the spec, section 4.3 and section 7:

1. the cosine scores of the owned columns against the sampled center are `cosines`, an
   argument here (they depend on the random center and on square roots);
2. the columns are ordered by score;
3. the ordered columns are divided into two contiguous groups by the cut rule;
4. "a node with ≤1 column must not be split", and a degenerate split, "a zero-norm center
   or all-equal cosine scores", is "treat[ed] as a terminal leaf rather than fail".  With a
   zero-norm center every score is the sentinel, so both cases are the case of all-equal
   scores. -/
def CosineNode.Split (n : CosineNode) (cosines : ArrayList ℚ) (policy : CutPolicy) :
    Option (ArrayList Int × ArrayList Int) :=
  if n.origIndices_.length < 2 then none
  else if cosines.length ≠ n.origIndices_.length then none
  else if cosines.all (fun c => decide (c = cosines.headD 0)) then none
  else
    let ordered := orderByScore cosines n.origIndices_
    let k := cutRank policy (ordered.map Prod.fst)
    some ((ordered.take k).map Prod.snd, (ordered.drop k).map Prod.snd)

end QuicSVD

namespace npt

/-! ## `npt::EfficientResampling` -/

/-- The 32-bit two's complement value of an integer: the result of an `int` operation whose
exact result is `z`. -/
def wrapInt (z : Int) : Int :=
  Int.bmod z 4294967296

/-- The sum `a + b` of two `int`. -/
def intAdd (a b : Int) : Int :=
  wrapInt (a + b)

/-- The product `a * b` of two `int`. -/
def intMul (a b : Int) : Int :=
  wrapInt (a * b)

/-- An `arma::colvec`: its entries. -/
abbrev colvec : Type := List Double

/-- An `arma::mat`: its number of rows and the list of its columns. -/
structure mat where
  n_rows : Nat
  cols : List colvec
  deriving DecidableEq

/-- The member `n_cols` of an `arma::mat`. -/
def mat.n_cols (M : mat) : Nat :=
  M.cols.length

/-- The column `M.col(i)` of an `arma::mat`. -/
def mat.col (M : mat) (i : Nat) : Option colvec :=
  M.cols[i]?

/-- Element access `v[i]` of a `std::vector` with an `int` index: defined exactly for
`0 ≤ i < v.size()`. -/
def vectorGet {α : Type} (v : List α) (i : Int) : Option α :=
  if 0 ≤ i ∧ i < (v.length : Int) then v[i.toNat]? else none

/-- The assignment made through `v[i]` of a `std::vector`. -/
def vectorSet {α : Type} (v : List α) (i : Int) (x : α) : List α :=
  v.set i.toNat x

/-- Armadillo `M.insert_cols(col_number, X)` with a column vector `X`: a copy of `X` is
inserted at column `col_number`.  It is an error when `col_number > M.n_cols`, and when `X`
has not the number of rows of `M` unless `M` is the empty matrix. -/
def insert_cols (M : mat) (col_number : Nat) (X : colvec) : Option mat :=
  if M.n_cols < col_number then none
  else if X.length ≠ M.n_rows ∧ (0 < M.n_rows ∨ 0 < M.n_cols) then none
  else some { n_rows := max M.n_rows X.length,
              cols := M.cols.take col_number ++ X :: M.cols.drop col_number }

/-- Armadillo `v.insert_rows(row_number, N)` on a column vector, the overload
`insert_rows(row_number, N, set_to_zero = true)` that a call with a scalar second argument
selects: `N` rows of zeros are inserted at row `row_number`.  It is an error when
`row_number > v.n_rows`. -/
def insert_rows (v : colvec) (row_number : Nat) (N : Nat) : Option colvec :=
  if v.length < row_number then none
  else some (v.take row_number ++ List.replicate N (Double.fin 0) ++ v.drop row_number)

/-- The data members of `class EfficientResampling` that `FindRegion_` and `SplitData_`
read or write.  The class is declared in a header that is not among the sources; the
types are those the two functions use the members at. -/
structure EfficientResampling where
  height_step_ : Double
  width_step_ : Double
  depth_step_ : Double
  num_height_partitions_ : Int
  num_width_partitions_ : Int
  num_points_ : Int
  data_all_mat_ : mat
  data_all_weights_ : colvec
  data_mats_ : List mat
  data_weights_ : List colvec
  deriving DecidableEq

/-- The function `int FindRegion_(arma::colvec& col)`:

    int h_ind = floor(col(0) / height_step_);
    int w_ind = floor(col(1) / width_step_);
    int d_ind = floor(col(2) / depth_step_);
    return (h_ind + num_height_partitions_ * w_ind
            + num_height_partitions_ * num_width_partitions_ * d_ind);

The quotients are divisions of doubles, their floors are converted to `int`, and the id is
computed in `int`.  The result is `none` where the source has no defined value: a
coordinate that `col` does not have, or a floor that is not an `int`. -/
def EfficientResampling.FindRegion_ (s : EfficientResampling) (col : colvec) : Option Int :=
  match col[0]?, col[1]?, col[2]? with
  | some c0, some c1, some c2 =>
    match Double.toInt (Double.floor (Double.div c0 s.height_step_)),
          Double.toInt (Double.floor (Double.div c1 s.width_step_)),
          Double.toInt (Double.floor (Double.div c2 s.depth_step_)) with
    | some h_ind, some w_ind, some d_ind =>
      some (intAdd (intAdd h_ind (intMul s.num_height_partitions_ w_ind))
        (intMul (intMul s.num_height_partitions_ s.num_width_partitions_) d_ind))
    | _, _, _ => none
  | _, _, _ => none

/-- The body of the loop of `SplitData_`, at the point `i`:

    arma::colvec& col_i = data_all_mat_.col(i);
    int region_id = FindRegion_(col_i);
    data_mats_[region_id].insert_cols(data_mats_[region_id].n_cols, col_i);
    data_weights_[region_id].insert_rows(data_weights_[region_id].n_rows,
                                         data_all_weights_(i));

The second argument of `insert_rows` is the double `data_all_weights_(i)`, converted to the
number `N` of rows to insert. -/
def EfficientResampling.SplitData_body (s : EfficientResampling) (i : Nat) :
    Option EfficientResampling := do
  let col_i ← s.data_all_mat_.col i
  let region_id ← s.FindRegion_ col_i
  let M ← vectorGet s.data_mats_ region_id
  let M1 ← insert_cols M M.n_cols col_i
  let v ← vectorGet s.data_weights_ region_id
  let w_i ← s.data_all_weights_[i]?
  let N ← Double.toUword w_i
  let v1 ← insert_rows v v.length N
  some { s with data_mats_ := vectorSet s.data_mats_ region_id M1,
                data_weights_ := vectorSet s.data_weights_ region_id v1 }

/-- The loop of `SplitData_` over the remaining values of `i`. -/
def EfficientResampling.SplitData_loop :
    List Nat → EfficientResampling → Option EfficientResampling
  | [], s => some s
  | i :: rest, s =>
    match s.SplitData_body i with
    | none => none
    | some s1 => EfficientResampling.SplitData_loop rest s1

/-- The function `void SplitData_()`: `for (int i = 0; i < num_points_; i++) { body }`. -/
def EfficientResampling.SplitData_ (s : EfficientResampling) : Option EfficientResampling :=
  EfficientResampling.SplitData_loop (List.range s.num_points_.toNat) s

/-- The region of the point number `i` of `data_all_mat_`. -/
def EfficientResampling.regionOf (s : EfficientResampling) (i : Nat) : Option Int :=
  match s.data_all_mat_.col i with
  | none => none
  | some col_i => s.FindRegion_ col_i

/-- The points `i` among `indices` that `FindRegion_` sends to the region `r`, in the order
of `indices`. -/
def EfficientResampling.pointsOf (s : EfficientResampling) (indices : List Nat) (r : Nat) :
    List Nat :=
  indices.filter (fun i => decide (s.regionOf i = some (r : Int)))

/-- The weight vector of the region `r` that appending the weights of its points, in
increasing order of the points, gives. -/
def EfficientResampling.weightsAppended (s : EfficientResampling) (r : Nat) : colvec :=
  (s.data_weights_[r]?).getD [] ++
    (s.pointsOf (List.range s.num_points_.toNat) r).filterMap (fun i => s.data_all_weights_[i]?)

/-- The matrix columns of the region `r` that appending its points, in increasing order,
gives. -/
def EfficientResampling.columnsAppended (s : EfficientResampling) (r : Nat) : List colvec :=
  ((s.data_mats_[r]?).map mat.cols).getD [] ++
    (s.pointsOf (List.range s.num_points_.toNat) r).filterMap (fun i => s.data_all_mat_.col i)

/-- A grid of 2 x 2 cells of side 1 in height and width, with four points in the regions
0, 1, 0 and 3. -/
def sampleGrid : EfficientResampling where
  height_step_ := Double.fin 1
  width_step_ := Double.fin 1
  depth_step_ := Double.fin 1
  num_height_partitions_ := 2
  num_width_partitions_ := 2
  num_points_ := 4
  data_all_mat_ :=
    { n_rows := 3,
      cols := [[Double.fin 0, Double.fin 0, Double.fin 0],
               [Double.fin 1, Double.fin 0, Double.fin 0],
               [Double.fin 0, Double.fin 0, Double.fin 0],
               [Double.fin 1, Double.fin 1, Double.fin 0]] }
  data_all_weights_ := [Double.fin 1, Double.fin 2, Double.fin 3, Double.fin 4]
  data_mats_ := [{ n_rows := 3, cols := [[Double.fin (1 / 2), Double.fin (1 / 2), Double.fin 0]] },
    { n_rows := 0, cols := [] }, { n_rows := 0, cols := [] }, { n_rows := 0, cols := [] }]
  data_weights_ := [[Double.fin 7], [], [], []]

/-- The object `sampleGrid` after `SplitData_`: each point is a new column of its region,
and the weight vector of a region has one zero per unit of each weight. -/
def sampleGridAfter : EfficientResampling :=
  { sampleGrid with
    data_mats_ := [
      { n_rows := 3,
        cols := [[Double.fin (1 / 2), Double.fin (1 / 2), Double.fin 0],
                 [Double.fin 0, Double.fin 0, Double.fin 0],
                 [Double.fin 0, Double.fin 0, Double.fin 0]] },
      { n_rows := 3, cols := [[Double.fin 1, Double.fin 0, Double.fin 0]] },
      { n_rows := 0, cols := [] },
      { n_rows := 3, cols := [[Double.fin 1, Double.fin 1, Double.fin 0]] }],
    data_weights_ := [
      [Double.fin 7, Double.fin 0, Double.fin 0, Double.fin 0, Double.fin 0],
      [Double.fin 0, Double.fin 0],
      [],
      [Double.fin 0, Double.fin 0, Double.fin 0, Double.fin 0]] }

end npt

/-! # Theorems -/

namespace QuicSVD

/-- An in-bounds access returns the element at that position. -/
theorem ArrayList.get_of_inBounds {α : Type} (a : ArrayList α) (i : Int)
    (h : ArrayList.InBounds a i) : ArrayList.get a i = a[i.toNat]? := by
  unfold ArrayList.get
  exact if_pos h

/-- An out-of-bounds access has no value. -/
theorem ArrayList.get_of_not_inBounds {α : Type} (a : ArrayList α) (i : Int)
    (h : ¬ ArrayList.InBounds a i) : ArrayList.get a i = none := by
  unfold ArrayList.get
  exact if_neg h

/-- C1: for a node with at least one column whose `cum_norms_` has one entry per owned column
and is the prefix sum of the squared norms, `getSumL2()` returns the last entry of
`cum_norms_`, and that value is the sum of the squared norms of all owned columns. -/
theorem getSumL2_eq_sum_sq_norms (n : CosineNode) (hpos : 0 < n.origIndices_.length)
    (hcum : IsCumNorms n.norms_ n.cum_norms_ n.origIndices_.length) :
    n.getSumL2 = n.cum_norms_.getLast? ∧
      n.getSumL2 = some ((n.norms_.map (fun x => x ^ 2)).sum) := by
  obtain ⟨hn, hc, hpre⟩ := hcum
  have hb : ArrayList.InBounds n.cum_norms_ (n.n_cols - 1) := by
    unfold ArrayList.InBounds CosineNode.n_cols
    omega
  have hidx : (n.n_cols - 1).toNat = n.origIndices_.length - 1 := by
    unfold CosineNode.n_cols
    omega
  have hget : n.getSumL2 = n.cum_norms_[n.origIndices_.length - 1]? := by
    unfold CosineNode.getSumL2
    rw [ArrayList.get_of_inBounds _ _ hb, hidx]
  refine ⟨?_, ?_⟩
  · rw [hget, List.getLast?_eq_getElem?, hc]
  · rw [hget, hpre (n.origIndices_.length - 1) (by omega)]
    have hk : n.origIndices_.length - 1 + 1 = n.norms_.length := by omega
    unfold sumSquares
    rw [hk, List.take_length]

/-- The node `sampleNode` satisfies the hypotheses of C1, and its `getSumL2()` is 26. -/
theorem getSumL2_eq_sum_sq_norms_witness :
    sampleNode.getSumL2 = sampleNode.cum_norms_.getLast? ∧
      sampleNode.getSumL2 = some ((sampleNode.norms_.map (fun x => x ^ 2)).sum) :=
  getSumL2_eq_sum_sq_norms sampleNode (by decide)
    ⟨by decide, by decide, by
      intro i hi
      have h2 : i = 0 ∨ i = 1 := by
        have : i < 2 := hi
        omega
      rcases h2 with rfl | rfl <;> norm_num [sampleNode, sumSquares]⟩

/-- C2: for every local position `i` with `0 ≤ i < n_cols()`, `getOrigIndex(i)` returns the
`i`-th entry `j` of `origIndices_`, and `GetColumn(i)` is the column of `A_` at the index `j`
(the column number `j` of `A_` whenever `j` is a column index of `A_`). -/
theorem getColumn_eq_column_at_origIndex (n : CosineNode) (i : Int) (h0 : 0 ≤ i)
    (hi : i < n.n_cols) :
    ∃ j : Int, n.origIndices_[i.toNat]? = some j ∧ n.getOrigIndex i = some j ∧
      n.GetColumn i = Matrix.MakeColumnVector n.A_ j ∧
      (0 ≤ j → j < (n.A_.length : Int) → n.GetColumn i = n.A_[j.toNat]?) := by
  have hb : ArrayList.InBounds n.origIndices_ i := ⟨h0, hi⟩
  have hlt : i.toNat < n.origIndices_.length := by
    unfold CosineNode.n_cols at hi
    omega
  refine ⟨n.origIndices_[i.toNat], List.getElem?_eq_getElem hlt, ?_, ?_, ?_⟩
  · unfold CosineNode.getOrigIndex
    rw [ArrayList.get_of_inBounds _ _ hb, List.getElem?_eq_getElem hlt]
  · unfold CosineNode.GetColumn
    rw [ArrayList.get_of_inBounds _ _ hb, List.getElem?_eq_getElem hlt]
  · intro hj0 hj1
    unfold CosineNode.GetColumn
    rw [ArrayList.get_of_inBounds _ _ hb, List.getElem?_eq_getElem hlt]
    exact ArrayList.get_of_inBounds n.A_ _ ⟨hj0, hj1⟩

/-- At position 0 of `sampleNode`, whose `origIndices_` is `[2, 0]`, `GetColumn` yields the
column 2 of `A_`, which is not the column 0 of `A_`. -/
theorem getColumn_eq_column_at_origIndex_witness :
    (∃ j : Int, sampleNode.origIndices_[(0 : Int).toNat]? = some j ∧
      sampleNode.getOrigIndex 0 = some j ∧
      sampleNode.GetColumn 0 = Matrix.MakeColumnVector sampleNode.A_ j ∧
      (0 ≤ j → j < (sampleNode.A_.length : Int) →
        sampleNode.GetColumn 0 = sampleNode.A_[j.toNat]?)) ∧
    sampleNode.getOrigIndex 0 = some 2 ∧ sampleNode.GetColumn 0 = some [3, 4] ∧
    sampleNode.GetColumn 0 ≠ sampleNode.A_[0]? :=
  ⟨getColumn_eq_column_at_origIndex sampleNode 0 (by decide) (by decide),
    by decide, by decide, by decide⟩

/-- A double that is not below another one is greater than or equal to it, NaN apart. -/
theorem Double_le_of_not_lt (a b : Double) (ha : a ≠ Double.nan) (hb : b ≠ Double.nan)
    (h : Double.lt a b = false) : Double.le b a = true := by
  cases a <;> cases b <;> simp_all [Double.lt, Double.le]

/-- A double other than NaN is greater than or equal to itself. -/
theorem Double_le_refl (a : Double) (ha : a ≠ Double.nan) : Double.le a a = true := by
  cases a <;> simp_all [Double.le]

/-- C3 fails as stated: in the queue of `nanNode` (error NaN) and `sampleNode` (error 3) the
node `nanNode` compares below no other node, and its error is not greater than or equal to
the errors of the queue. -/
theorem compareCosineNode_nan_counterexample :
    nanNode ∈ [nanNode, sampleNode] ∧
    (∀ y ∈ [nanNode, sampleNode], y ≠ nanNode → CompareCosineNode nanNode y = false) ∧
    ¬ (∀ y ∈ [nanNode, sampleNode], Double.le y.L2Err_ nanNode.L2Err_ = true) := by
  decide

/-- C3, amended: `CompareCosineNode(a, b)` is true exactly when `a.L2Err_ < b.L2Err_` as
doubles (for finite errors, when the one is strictly less than the other); and in a
collection `q` of nodes none of whose residual errors is NaN, a node `x` of `q` such that
`CompareCosineNode(x, y)` is false for every other node `y` of `q` has a residual error
greater than or equal to that of every node of `q`. -/
theorem compareCosineNode_max (q : List CosineNode) (x : CosineNode) (hx : x ∈ q)
    (hnan : ∀ y ∈ q, y.L2Err_ ≠ Double.nan)
    (hmax : ∀ y ∈ q, y ≠ x → CompareCosineNode x y = false) :
    (∀ a b : CosineNode, CompareCosineNode a b = true ↔ Double.lt a.L2Err_ b.L2Err_ = true) ∧
    (∀ u v : ℚ, Double.lt (Double.fin u) (Double.fin v) = true ↔ u < v) ∧
      ∀ y ∈ q, Double.le y.L2Err_ x.L2Err_ = true := by
  refine ⟨fun a b => Iff.rfl, fun u v => by simp [Double.lt], ?_⟩
  intro y hy
  by_cases hyx : y = x
  · rw [hyx]
    exact Double_le_refl _ (hnan x hx)
  · exact Double_le_of_not_lt _ _ (hnan x hx) (hnan y hy) (hmax y hy hyx)

/-- In the queue `[emptyNode, sampleNode]` (errors 0 and 3, no NaN) the node `sampleNode` is
the one that compares below no other node, and its error is the largest. -/
theorem compareCosineNode_max_witness :
    sampleNode ∈ [emptyNode, sampleNode] ∧
    ((∀ a b : CosineNode,
        CompareCosineNode a b = true ↔ Double.lt a.L2Err_ b.L2Err_ = true) ∧
    (∀ u v : ℚ, Double.lt (Double.fin u) (Double.fin v) = true ↔ u < v) ∧
      ∀ y ∈ [emptyNode, sampleNode], Double.le y.L2Err_ sampleNode.L2Err_ = true) :=
  ⟨by decide, compareCosineNode_max [emptyNode, sampleNode] sampleNode (by decide)
    (by decide) (by decide)⟩

/-- C4 fails as stated: `setL2Err(-1)` stores a negative residual error. -/
theorem setL2Err_negative_counterexample :
    ¬ (∀ (n : CosineNode) (e : Double), Double.le (Double.fin 0) (n.setL2Err e).L2Err_ = true) := by
  intro h
  have h1 := h sampleNode (Double.fin (-1))
  simp [CosineNode.setL2Err, Double.le] at h1
  norm_num at h1

/-- C4, amended: after `setL2Err(e)` the residual error stored in the node, the key read by
`CompareCosineNode`, is `e` itself; it is greater than or equal to zero exactly when `e`
is. -/
theorem setL2Err_stores_argument (n : CosineNode) (e : Double) :
    (n.setL2Err e).L2Err_ = e ∧
    (Double.le (Double.fin 0) (n.setL2Err e).L2Err_ = true ↔
      Double.le (Double.fin 0) e = true) ∧
      ∀ m : CosineNode,
        (CompareCosineNode (n.setL2Err e) m = true ↔ Double.lt e m.L2Err_ = true) ∧
        (CompareCosineNode m (n.setL2Err e) = true ↔ Double.lt m.L2Err_ e = true) := by
  refine ⟨rfl, Iff.rfl, ?_⟩
  intro m
  exact ⟨Iff.rfl, Iff.rfl⟩

/-- C7: `setL2Err(e)` changes only the residual error: the stored error becomes `e`, and the
matrix alias, the column-index list (`n_cols`, every `getOrigIndex(i)`, every
`GetColumn(i)`), the norms, the cumulative norm squares (`getSumL2`), the mean, the
`isLeft_` flag and the parent, left and right links (`hasLeft`, `hasRight`, `getLeft`,
`getRight`) are those of before the call. -/
theorem setL2Err_frame (n : CosineNode) (e : Double) :
    (n.setL2Err e).L2Err_ = e ∧
    (n.setL2Err e).A_ = n.A_ ∧
    (n.setL2Err e).origIndices_ = n.origIndices_ ∧
    (n.setL2Err e).n_cols = n.n_cols ∧
    (∀ i : Int, (n.setL2Err e).getOrigIndex i = n.getOrigIndex i) ∧
    (∀ i : Int, (n.setL2Err e).GetColumn i = n.GetColumn i) ∧
    (n.setL2Err e).norms_ = n.norms_ ∧
    (n.setL2Err e).cum_norms_ = n.cum_norms_ ∧
    (n.setL2Err e).getSumL2 = n.getSumL2 ∧
    (n.setL2Err e).mean_ = n.mean_ ∧
    (n.setL2Err e).getMean = n.getMean ∧
    (n.setL2Err e).isLeft_ = n.isLeft_ ∧
    (n.setL2Err e).parent_ = n.parent_ ∧
    (n.setL2Err e).left_ = n.left_ ∧
    (n.setL2Err e).right_ = n.right_ ∧
    (n.setL2Err e).hasLeft = n.hasLeft ∧
    (n.setL2Err e).hasRight = n.hasRight ∧
    (n.setL2Err e).getLeft = n.getLeft ∧
    (n.setL2Err e).getRight = n.getRight := by
  refine ⟨rfl, rfl, rfl, rfl, fun _ => rfl, fun _ => rfl, rfl, rfl, rfl, rfl, rfl, rfl,
    rfl, rfl, rfl, rfl, rfl, rfl, rfl⟩

/-- C10: `getSumL2()` reads `cum_norms_` at the index `n_cols() - 1`, where `n_cols()` is the
length of `origIndices_`.  The read is in bounds, and returns a value, for every node that
owns at least one column and whose `cum_norms_` has the length of `origIndices_`; for a node
that owns no column the index is `-1`, the read is out of bounds and has no value. -/
theorem getSumL2_read_bounds (n : CosineNode) :
    n.getSumL2 = ArrayList.get n.cum_norms_ (n.n_cols - 1) ∧
    n.n_cols = (n.origIndices_.length : Int) ∧
    (0 < n.origIndices_.length → n.cum_norms_.length = n.origIndices_.length →
      ArrayList.InBounds n.cum_norms_ (n.n_cols - 1) ∧ n.getSumL2.isSome = true) ∧
    (n.origIndices_.length = 0 →
      n.n_cols - 1 = -1 ∧ ¬ ArrayList.InBounds n.cum_norms_ (n.n_cols - 1) ∧
        n.getSumL2 = none) := by
  refine ⟨rfl, rfl, ?_, ?_⟩
  · intro hpos hlen
    have hb : ArrayList.InBounds n.cum_norms_ (n.n_cols - 1) := by
      unfold ArrayList.InBounds CosineNode.n_cols
      omega
    refine ⟨hb, ?_⟩
    unfold CosineNode.getSumL2
    rw [ArrayList.get_of_inBounds _ _ hb]
    have hlt : (n.n_cols - 1).toNat < n.cum_norms_.length := by
      unfold CosineNode.n_cols
      omega
    rw [List.getElem?_eq_getElem hlt]
    rfl
  · intro h0
    have hidx : n.n_cols - 1 = -1 := by
      unfold CosineNode.n_cols
      omega
    have hnb : ¬ ArrayList.InBounds n.cum_norms_ (n.n_cols - 1) := by
      rw [hidx]
      unfold ArrayList.InBounds
      omega
    exact ⟨hidx, hnb, ArrayList.get_of_not_inBounds _ _ hnb⟩

/-- Both cases of C10 occur: `sampleNode` (two columns) reads in bounds, `emptyNode` reads at
the index `-1`. -/
theorem getSumL2_read_bounds_witness :
    (ArrayList.InBounds sampleNode.cum_norms_ (sampleNode.n_cols - 1) ∧
      sampleNode.getSumL2.isSome = true) ∧
    (emptyNode.n_cols - 1 = -1 ∧ ¬ ArrayList.InBounds emptyNode.cum_norms_ (emptyNode.n_cols - 1) ∧
      emptyNode.getSumL2 = none) :=
  ⟨(getSumL2_read_bounds sampleNode).2.2.1 (by decide) (by decide),
    (getSumL2_read_bounds emptyNode).2.2.2 (by decide)⟩

/-- With the even bipartition by rank, `Split()` succeeds on every node with at least two
columns whose scores are not all equal. -/
theorem Split_evenRank_isSome (n : CosineNode) (cosines : ArrayList ℚ)
    (h2 : 2 ≤ n.origIndices_.length) (hlen : cosines.length = n.origIndices_.length)
    (hne : cosines.all (fun c => decide (c = cosines.headD 0)) = false) :
    (n.Split cosines CutPolicy.evenRank).isSome = true := by
  unfold CosineNode.Split
  rw [if_neg (by omega), if_neg (by simp [hlen]), hne]
  rfl

end QuicSVD

namespace npt

open EfficientResampling

/-! ## Arithmetic of `int` and of `double` -/

/-- An integer inside the range of `int` is its own 32-bit value. -/
theorem wrapInt_eq_self (z : Int) (h0 : -2147483648 ≤ z) (h1 : z ≤ 2147483647) :
    wrapInt z = z := by
  unfold wrapInt Int.bmod
  simp only []
  split_ifs <;> omega

/-- The id that `FindRegion_` computes with `int` operations is the 32-bit value of the exact
id. -/
theorem int_id_eq_wrap (Nh Nw h w d : Int) :
    intAdd (intAdd h (intMul Nh w)) (intMul (intMul Nh Nw) d) =
      wrapInt (h + Nh * w + Nh * Nw * d) := by
  simp [intAdd, intMul, wrapInt]

/-- The exponent of a value of the normal range. -/
theorem Double_exponent_eq (q : ℚ) (e : Int) (h1 : (2 : ℚ) ^ e ≤ |q|)
    (h2 : |q| < (2 : ℚ) ^ (e + 1)) (he : -1022 ≤ e) : Double.exponent q = e := by
  have hpos : 0 < |q| := lt_of_lt_of_le (zpow_pos (by norm_num) e) h1
  have a : e ≤ Int.log 2 |q| :=
    (Int.zpow_le_iff_le_log (by norm_num) hpos).mp (by exact_mod_cast h1)
  have b : Int.log 2 |q| < e + 1 :=
    (Int.lt_zpow_iff_log_lt (by norm_num) hpos).mp (by exact_mod_cast h2)
  unfold Double.exponent
  omega

/-- An integer rounds to itself. -/
theorem roundHalfEven_intCast (m : Int) : roundHalfEven (m : ℚ) = m := by
  unfold roundHalfEven
  simp

/-- A value `m * 2^(e-52)` with `2^e ≤ |q| < 2^(e+1)` and `-1022 ≤ e ≤ 1023` is a double:
rounding leaves it as it is. -/
theorem Double_round_of_exact (q : ℚ) (e m : Int) (h1 : (2 : ℚ) ^ e ≤ |q|)
    (h2 : |q| < (2 : ℚ) ^ (e + 1)) (he : -1022 ≤ e) (he2 : e ≤ 1023)
    (hm : q = (m : ℚ) * (2 : ℚ) ^ (e - 52)) : Double.round q = Double.fin q := by
  have hpos : 0 < |q| := lt_of_lt_of_le (zpow_pos (by norm_num) e) h1
  have hq0 : q ≠ 0 := abs_pos.mp hpos
  have hu : (2 : ℚ) ^ (e - 52) ≠ 0 := (zpow_pos (by norm_num) _).ne'
  have hdiv : q / (2 : ℚ) ^ (e - 52) = (m : ℚ) := by
    rw [hm, mul_div_assoc, div_self hu, mul_one]
  have hbig : (2 : ℚ) ^ (e + 1) ≤ (2 : ℚ) ^ (1024 : Nat) := by
    have hc : (2 : ℚ) ^ (1024 : Nat) = (2 : ℚ) ^ ((1024 : Nat) : Int) :=
      (zpow_natCast (2 : ℚ) 1024).symm
    rw [hc]
    exact zpow_le_zpow_right₀ (by norm_num) (by omega)
  unfold Double.round
  rw [Double_exponent_eq q e h1 h2 he, hdiv, roundHalfEven_intCast, ← hm, if_neg hq0,
    if_neg (not_le.mpr (lt_of_lt_of_le h2 hbig))]

/-- The value of `FindRegion_` on a point with three coordinates whose cell indices are
`int` values. -/
theorem FindRegion_eq (s : EfficientResampling) (col : colvec) (c0 c1 c2 : Double)
    (h w d : Int)
    (h0 : col[0]? = some c0) (h1 : col[1]? = some c1) (h2 : col[2]? = some c2)
    (hh : Double.toInt (Double.floor (Double.div c0 s.height_step_)) = some h)
    (hw : Double.toInt (Double.floor (Double.div c1 s.width_step_)) = some w)
    (hd : Double.toInt (Double.floor (Double.div c2 s.depth_step_)) = some d) :
    s.FindRegion_ col = some (wrapInt (h + s.num_height_partitions_ * w
      + s.num_height_partitions_ * s.num_width_partitions_ * d)) := by
  unfold EfficientResampling.FindRegion_
  rw [h0, h1, h2]
  simp only [hh, hw, hd]
  rw [int_id_eq_wrap]

/-- The cell index of the coordinate 0 with the step 1 is 0. -/
theorem cellIndex_zero_one :
    Double.toInt (Double.floor (Double.div (Double.fin 0) (Double.fin 1))) = some 0 := by
  simp [Double.div, Double.round, Double.floor, Double.toInt, Double.truncate]

/-- The cell index of a coordinate `n = m * 2^(e-52)`, an integer of the range of `int` with
`2^e ≤ n < 2^(e+1)`, with the step 1 is `n`. -/
theorem cellIndex_int_one (n e m : Int) (h1 : (2 : ℚ) ^ e ≤ |(n : ℚ)|)
    (h2 : |(n : ℚ)| < (2 : ℚ) ^ (e + 1)) (he : -1022 ≤ e) (he2 : e ≤ 1023)
    (hm : (n : ℚ) = (m : ℚ) * (2 : ℚ) ^ (e - 52))
    (hn0 : 0 ≤ n) (hn1 : n ≤ 2147483647) :
    Double.toInt (Double.floor (Double.div (Double.fin n) (Double.fin 1))) = some n := by
  have hr := Double_round_of_exact (n : ℚ) e m h1 h2 he he2 hm
  have hn : (0 : ℚ) ≤ (n : ℚ) := by exact_mod_cast hn0
  simp only [Double.div, one_ne_zero, if_false, div_one, hr, Double.floor, Double.toInt,
    Double.truncate, Int.floor_intCast, if_pos hn]
  rw [if_pos ⟨by omega, hn1⟩]

/-- The cell index of the coordinate 1 with the step 1 is 1. -/
theorem cellIndex_one_one :
    Double.toInt (Double.floor (Double.div (Double.fin 1) (Double.fin 1))) = some 1 := by
  have := cellIndex_int_one 1 0 4503599627370496 (by norm_num) (by norm_num) (by norm_num)
    (by norm_num) (by norm_num) (by norm_num) (by norm_num)
  simpa using this

/-- The cell index of the coordinate `2^30` with the step 1 is `2^30`. -/
theorem cellIndex_pow30_one :
    Double.toInt (Double.floor (Double.div (Double.fin 1073741824) (Double.fin 1))) =
      some 1073741824 := by
  have := cellIndex_int_one 1073741824 30 4503599627370496 (by norm_num) (by norm_num)
    (by norm_num) (by norm_num) (by norm_num) (by norm_num) (by norm_num)
  simpa using this

/-- Mixed-radix numbering of cells: two cells with the same id are the same cell. -/
theorem cell_id_injective (Nh Nw h w d h' w' d' : Int) (hh0 : 0 ≤ h) (hh1 : h < Nh)
    (hw0 : 0 ≤ w) (hw1 : w < Nw) (hh0' : 0 ≤ h') (hh1' : h' < Nh) (hw0' : 0 ≤ w')
    (hw1' : w' < Nw)
    (heq : h + Nh * w + Nh * Nw * d = h' + Nh * w' + Nh * Nw * d') :
    h = h' ∧ w = w' ∧ d = d' := by
  have hNh : 0 < Nh := by omega
  have hNw : 0 < Nw := by omega
  have r1 : h + Nh * w + Nh * Nw * d = h + Nh * (w + Nw * d) := by ring
  have r2 : h' + Nh * w' + Nh * Nw * d' = h' + Nh * (w' + Nw * d') := by ring
  rw [r1, r2] at heq
  have m1 : (h + Nh * (w + Nw * d)) % Nh = h := by
    rw [Int.add_mul_emod_self_left]
    exact Int.emod_eq_of_lt hh0 hh1
  have m2 : (h' + Nh * (w' + Nw * d')) % Nh = h' := by
    rw [Int.add_mul_emod_self_left]
    exact Int.emod_eq_of_lt hh0' hh1'
  have ehh : h = h' := by
    rw [← m1, ← m2, heq]
  subst ehh
  have heq2 : w + Nw * d = w' + Nw * d' := by
    have : Nh * (w + Nw * d) = Nh * (w' + Nw * d') := by omega
    exact Int.eq_of_mul_eq_mul_left hNh.ne' this
  have m3 : (w + Nw * d) % Nw = w := by
    rw [Int.add_mul_emod_self_left]
    exact Int.emod_eq_of_lt hw0 hw1
  have m4 : (w' + Nw * d') % Nw = w' := by
    rw [Int.add_mul_emod_self_left]
    exact Int.emod_eq_of_lt hw0' hw1'
  have eww : w = w' := by
    rw [← m3, ← m4, heq2]
  subst eww
  have : Nw * d = Nw * d' := by omega
  exact ⟨rfl, rfl, Int.eq_of_mul_eq_mul_left hNw.ne' this⟩

/-! ## `FindRegion_` -/

/-- C9 fails as stated: on `sampleGrid` (2 x 2 cells of side 1) the points `(0, 0, 2^30)` and
`(0, 0, 0)` have the cell indices `(0, 0, 2^30)` and `(0, 0, 0)`, within `0 ≤ h < 2`,
`0 ≤ w < 2` and `d ≥ 0`; the cells differ, and `FindRegion_` returns the id 0 for both,
the `int` product `2 * 2 * 2^30` being `2^32`. -/
theorem FindRegion_same_id_counterexample :
    sampleGrid.num_height_partitions_ = 2 ∧ sampleGrid.num_width_partitions_ = 2 ∧
    Double.toInt (Double.floor (Double.div (Double.fin 0) sampleGrid.height_step_)) = some 0 ∧
    Double.toInt (Double.floor (Double.div (Double.fin 0) sampleGrid.width_step_)) = some 0 ∧
    Double.toInt (Double.floor (Double.div (Double.fin 1073741824) sampleGrid.depth_step_)) =
      some 1073741824 ∧
    Double.toInt (Double.floor (Double.div (Double.fin 0) sampleGrid.depth_step_)) = some 0 ∧
    (⌊(0 : ℚ) / 1⌋ = 0 ∧ ⌊(1073741824 : ℚ) / 1⌋ = 1073741824) ∧
    ((0 : Int) ≤ 0 ∧ (0 : Int) < 2 ∧ (0 : Int) ≤ 1073741824) ∧
    sampleGrid.FindRegion_ [Double.fin 0, Double.fin 0, Double.fin 1073741824] = some 0 ∧
    sampleGrid.FindRegion_ [Double.fin 0, Double.fin 0, Double.fin 0] = some 0 ∧
    ((0 : Int), (0 : Int), (1073741824 : Int)) ≠ (0, 0, 0) := by
  refine ⟨rfl, rfl, cellIndex_zero_one, cellIndex_zero_one, cellIndex_pow30_one,
    cellIndex_zero_one, ⟨by norm_num, by norm_num⟩, by decide, ?_, ?_, by decide⟩
  · rw [FindRegion_eq sampleGrid _ (Double.fin 0) (Double.fin 0) (Double.fin 1073741824)
      0 0 1073741824 rfl rfl rfl cellIndex_zero_one cellIndex_zero_one cellIndex_pow30_one]
    decide
  · rw [FindRegion_eq sampleGrid _ (Double.fin 0) (Double.fin 0) (Double.fin 0)
      0 0 0 rfl rfl rfl cellIndex_zero_one cellIndex_zero_one cellIndex_zero_one]
    decide

/-- C9, amended: for two points whose cell indices `h`, `w`, `d`, computed as the code
computes them (the floor of the double quotient `col(k) / step`, converted to `int`),
satisfy `0 ≤ h < num_height_partitions_` and `0 ≤ w < num_width_partitions_`, and whose
exact ids `h + Nh * w + Nh * Nw * d` are `int` values, `FindRegion_` returns an id for each,
and the two ids are equal if and only if the two points have the same `(h, w, d)` cell.
(The bound `d ≥ 0` is not needed.) -/
theorem FindRegion_same_id_iff_same_cell (s : EfficientResampling) (p q : colvec)
    (p0 p1 p2 q0 q1 q2 : Double) (hp wp dp hq wq dq : Int)
    (ep0 : p[0]? = some p0) (ep1 : p[1]? = some p1) (ep2 : p[2]? = some p2)
    (eq0 : q[0]? = some q0) (eq1 : q[1]? = some q1) (eq2 : q[2]? = some q2)
    (chp : Double.toInt (Double.floor (Double.div p0 s.height_step_)) = some hp)
    (cwp : Double.toInt (Double.floor (Double.div p1 s.width_step_)) = some wp)
    (cdp : Double.toInt (Double.floor (Double.div p2 s.depth_step_)) = some dp)
    (chq : Double.toInt (Double.floor (Double.div q0 s.height_step_)) = some hq)
    (cwq : Double.toInt (Double.floor (Double.div q1 s.width_step_)) = some wq)
    (cdq : Double.toInt (Double.floor (Double.div q2 s.depth_step_)) = some dq)
    (rhp : 0 ≤ hp ∧ hp < s.num_height_partitions_)
    (rwp : 0 ≤ wp ∧ wp < s.num_width_partitions_)
    (rhq : 0 ≤ hq ∧ hq < s.num_height_partitions_)
    (rwq : 0 ≤ wq ∧ wq < s.num_width_partitions_)
    (fitp : -2147483648 ≤ hp + s.num_height_partitions_ * wp
        + s.num_height_partitions_ * s.num_width_partitions_ * dp ∧
      hp + s.num_height_partitions_ * wp
        + s.num_height_partitions_ * s.num_width_partitions_ * dp ≤ 2147483647)
    (fitq : -2147483648 ≤ hq + s.num_height_partitions_ * wq
        + s.num_height_partitions_ * s.num_width_partitions_ * dq ∧
      hq + s.num_height_partitions_ * wq
        + s.num_height_partitions_ * s.num_width_partitions_ * dq ≤ 2147483647) :
    s.FindRegion_ p = some (hp + s.num_height_partitions_ * wp
        + s.num_height_partitions_ * s.num_width_partitions_ * dp) ∧
    s.FindRegion_ q = some (hq + s.num_height_partitions_ * wq
        + s.num_height_partitions_ * s.num_width_partitions_ * dq) ∧
    (s.FindRegion_ p = s.FindRegion_ q ↔ (hp = hq ∧ wp = wq ∧ dp = dq)) := by
  have fp : s.FindRegion_ p = some (hp + s.num_height_partitions_ * wp
      + s.num_height_partitions_ * s.num_width_partitions_ * dp) := by
    rw [FindRegion_eq s p p0 p1 p2 hp wp dp ep0 ep1 ep2 chp cwp cdp,
      wrapInt_eq_self _ fitp.1 fitp.2]
  have fq : s.FindRegion_ q = some (hq + s.num_height_partitions_ * wq
      + s.num_height_partitions_ * s.num_width_partitions_ * dq) := by
    rw [FindRegion_eq s q q0 q1 q2 hq wq dq eq0 eq1 eq2 chq cwq cdq,
      wrapInt_eq_self _ fitq.1 fitq.2]
  refine ⟨fp, fq, ?_⟩
  rw [fp, fq]
  constructor
  · intro h
    exact cell_id_injective _ _ _ _ _ _ _ _ rhp.1 rhp.2 rwp.1 rwp.2 rhq.1 rhq.2 rwq.1 rwq.2
      (Option.some.inj h)
  · rintro ⟨e1, e2, e3⟩
    rw [e1, e2, e3]

/-- On `sampleGrid` the points `(1, 0, 0)` and `(0, 0, 0)` lie in the cells `(1, 0, 0)` and
`(0, 0, 0)`, and their ids, 1 and 0, differ as their cells do. -/
theorem FindRegion_same_id_iff_same_cell_witness :
    sampleGrid.FindRegion_ [Double.fin 1, Double.fin 0, Double.fin 0] =
      some (1 + sampleGrid.num_height_partitions_ * 0
        + sampleGrid.num_height_partitions_ * sampleGrid.num_width_partitions_ * 0) ∧
    sampleGrid.FindRegion_ [Double.fin 0, Double.fin 0, Double.fin 0] =
      some (0 + sampleGrid.num_height_partitions_ * 0
        + sampleGrid.num_height_partitions_ * sampleGrid.num_width_partitions_ * 0) ∧
    (sampleGrid.FindRegion_ [Double.fin 1, Double.fin 0, Double.fin 0] =
        sampleGrid.FindRegion_ [Double.fin 0, Double.fin 0, Double.fin 0] ↔
      ((1 : Int) = 0 ∧ (0 : Int) = 0 ∧ (0 : Int) = 0)) :=
  FindRegion_same_id_iff_same_cell sampleGrid
    [Double.fin 1, Double.fin 0, Double.fin 0] [Double.fin 0, Double.fin 0, Double.fin 0]
    (Double.fin 1) (Double.fin 0) (Double.fin 0) (Double.fin 0) (Double.fin 0) (Double.fin 0)
    1 0 0 0 0 0 rfl rfl rfl rfl rfl rfl
    cellIndex_one_one cellIndex_zero_one cellIndex_zero_one
    cellIndex_zero_one cellIndex_zero_one cellIndex_zero_one
    (by decide) (by decide) (by decide) (by decide) (by decide) (by decide)

/-! ## `SplitData_` -/

/-- The regions of the cells `(0, 0, 0)`, `(1, 0, 0)` and `(1, 1, 0)` on a grid of 2 x 2 cells
of side 1. -/
theorem FindRegion_unit_grid (s : EfficientResampling)
    (hs : s.height_step_ = Double.fin 1) (ws : s.width_step_ = Double.fin 1)
    (ds : s.depth_step_ = Double.fin 1)
    (hN : s.num_height_partitions_ = 2) (wN : s.num_width_partitions_ = 2) :
    s.FindRegion_ [Double.fin 0, Double.fin 0, Double.fin 0] = some 0 ∧
    s.FindRegion_ [Double.fin 1, Double.fin 0, Double.fin 0] = some 1 ∧
    s.FindRegion_ [Double.fin 1, Double.fin 1, Double.fin 0] = some 3 := by
  have z := cellIndex_zero_one
  have o := cellIndex_one_one
  refine ⟨?_, ?_, ?_⟩
  · rw [FindRegion_eq s _ (Double.fin 0) (Double.fin 0) (Double.fin 0) 0 0 0 rfl rfl rfl
      (by rw [hs]; exact z) (by rw [ws]; exact z) (by rw [ds]; exact z), hN, wN]
    decide
  · rw [FindRegion_eq s _ (Double.fin 1) (Double.fin 0) (Double.fin 0) 1 0 0 rfl rfl rfl
      (by rw [hs]; exact o) (by rw [ws]; exact z) (by rw [ds]; exact z), hN, wN]
    decide
  · rw [FindRegion_eq s _ (Double.fin 1) (Double.fin 1) (Double.fin 0) 1 1 0 rfl rfl rfl
      (by rw [hs]; exact o) (by rw [ws]; exact o) (by rw [ds]; exact z), hN, wN]
    decide

/-- A weight that is a natural number below `2^32` converts to that number of rows. -/
theorem toUword_natCast (k : Nat) (hk : k ≤ 4294967295) :
    Double.toUword (Double.fin (k : ℚ)) = some k := by
  have h0 : (0 : ℚ) ≤ (k : ℚ) := Nat.cast_nonneg k
  have hf : ⌊(k : ℚ)⌋ = (k : Int) := by
    have : ((k : Int) : ℚ) = (k : ℚ) := by norm_cast
    rw [← this, Int.floor_intCast]
  simp only [Double.toUword, Double.truncate, if_pos h0, hf]
  rw [if_pos ⟨by omega, by omega⟩]
  simp

/-- One iteration of the loop of `SplitData_`, when every access is defined and the point has
the number of rows of the matrix of its region, or that matrix is empty: the point becomes
the last column of the matrix, and `N` zeros are appended to the weight vector, where `N`
is the weight converted to `uword`. -/
theorem SplitData_body_eq (s : EfficientResampling) (i : Nat) (col : colvec) (w : Double)
    (N : Nat) (id : Int) (M : mat) (v : colvec)
    (hcol : s.data_all_mat_.col i = some col)
    (hid : s.FindRegion_ col = some id)
    (hM : vectorGet s.data_mats_ id = some M)
    (hconf : col.length = M.n_rows ∨ (M.n_rows = 0 ∧ M.n_cols = 0))
    (hv : vectorGet s.data_weights_ id = some v)
    (hw : s.data_all_weights_[i]? = some w)
    (hN : Double.toUword w = some N) :
    s.SplitData_body i =
      some { s with
        data_mats_ := vectorSet s.data_mats_ id
          { n_rows := max M.n_rows col.length, cols := M.cols ++ [col] },
        data_weights_ := vectorSet s.data_weights_ id
          (v ++ List.replicate N (Double.fin 0)) } := by
  have hc : ¬ (¬ col.length = M.n_rows ∧ (0 < M.n_rows ∨ 0 < M.cols.length)) := by
    rcases hconf with h | ⟨h1, h2⟩
    · exact fun hh => hh.1 h
    · intro hh
      unfold mat.n_cols at h2
      omega
  simp only [EfficientResampling.SplitData_body, hcol, hid, hM, hv, hw, hN, insert_cols,
    insert_rows, mat.n_cols, Option.bind_eq_bind, Option.some_bind, lt_self_iff_false,
    if_false, ne_eq, if_neg hc, List.take_length, List.drop_length, List.append_nil]

/-- C6, the defect: on `sampleGrid`, whose four points have the weights 1, 2, 3, 4 and go to
the regions 0, 1, 0, 3, `SplitData_` returns `sampleGridAfter`.  The matrix of each region
is its initial columns followed by its points in increasing order, as the claim says.  The
weight vector of each region is not extended by the weights of its points (the claim says
`[7, 1, 3]`, `[2]`, `[]`, `[4]`): the call of `insert_rows` with a double as second
argument inserts that number of zero rows, giving `[7, 0, 0, 0, 0]`, `[0, 0]`, `[]`,
`[0, 0, 0, 0]`. -/
theorem SplitData_weights_not_appended :
    sampleGrid.SplitData_ = some sampleGridAfter ∧
    sampleGridAfter.data_mats_.map mat.cols =
      (List.range 4).map sampleGrid.columnsAppended ∧
    (List.range 4).map sampleGrid.weightsAppended =
      [[Double.fin 7, Double.fin 1, Double.fin 3], [Double.fin 2], [], [Double.fin 4]] ∧
    sampleGridAfter.data_weights_ =
      [[Double.fin 7, Double.fin 0, Double.fin 0, Double.fin 0, Double.fin 0],
       [Double.fin 0, Double.fin 0], [],
       [Double.fin 0, Double.fin 0, Double.fin 0, Double.fin 0]] ∧
    sampleGridAfter.data_weights_ ≠ (List.range 4).map sampleGrid.weightsAppended := by
  have hF := fun s hs ws ds hN wN => FindRegion_unit_grid s hs ws ds hN wN
  have hreg : ∀ i : Nat, sampleGrid.regionOf i =
      (([some 0, some 1, some 0, some 3] : List (Option Int))[i]?).getD none := by
    intro i
    have h := hF sampleGrid rfl rfl rfl rfl rfl
    match i with
    | 0 => exact h.1
    | 1 => exact h.2.1
    | 2 => exact h.1
    | 3 => exact h.2.2
    | (k + 4) => rfl
  have hpts : ∀ r : Nat, sampleGrid.pointsOf (List.range sampleGrid.num_points_.toNat) r =
      [0, 1, 2, 3].filter (fun i => decide
        ((([some 0, some 1, some 0, some 3] : List (Option Int))[i]?).getD none
          = some (r : Int))) := by
    intro r
    unfold EfficientResampling.pointsOf
    have hr : List.range sampleGrid.num_points_.toNat = [0, 1, 2, 3] := by decide
    rw [hr]
    simp only [hreg]
  have hw : (List.range 4).map sampleGrid.weightsAppended =
      [[Double.fin 7, Double.fin 1, Double.fin 3], [Double.fin 2], [], [Double.fin 4]] := by
    have hr : List.range 4 = [0, 1, 2, 3] := by decide
    rw [hr]
    simp only [List.map, EfficientResampling.weightsAppended, hpts]
    decide
  refine ⟨?_, ?_, hw, rfl, ?_⟩
  · unfold EfficientResampling.SplitData_
    have hr : List.range sampleGrid.num_points_.toNat = [0, 1, 2, 3] := by decide
    rw [hr]
    simp only [EfficientResampling.SplitData_loop]
    rw [SplitData_body_eq _ 0 [Double.fin 0, Double.fin 0, Double.fin 0] (Double.fin 1) 1 0
      _ _ ?c0 ?f0 ?m0 ?k0 ?v0 ?w0 ?n0]
    case m0 => rfl
    case v0 => rfl
    case c0 => rfl
    case w0 => rfl
    case f0 => exact (hF _ rfl rfl rfl rfl rfl).1
    case k0 => exact Or.inl rfl
    case n0 => simpa using toUword_natCast 1 (by decide)
    simp only []
    rw [SplitData_body_eq _ 1 [Double.fin 1, Double.fin 0, Double.fin 0] (Double.fin 2) 2 1
      _ _ ?c1 ?f1 ?m1 ?k1 ?v1 ?w1 ?n1]
    case m1 => rfl
    case v1 => rfl
    case c1 => rfl
    case w1 => rfl
    case f1 => exact (hF _ rfl rfl rfl rfl rfl).2.1
    case k1 => exact Or.inr ⟨rfl, rfl⟩
    case n1 => simpa using toUword_natCast 2 (by decide)
    simp only []
    rw [SplitData_body_eq _ 2 [Double.fin 0, Double.fin 0, Double.fin 0] (Double.fin 3) 3 0
      _ _ ?c2 ?f2 ?m2 ?k2 ?v2 ?w2 ?n2]
    case m2 => rfl
    case v2 => rfl
    case c2 => rfl
    case w2 => rfl
    case f2 => exact (hF _ rfl rfl rfl rfl rfl).1
    case k2 => exact Or.inl rfl
    case n2 => simpa using toUword_natCast 3 (by decide)
    simp only []
    rw [SplitData_body_eq _ 3 [Double.fin 1, Double.fin 1, Double.fin 0] (Double.fin 4) 4 3
      _ _ ?c3 ?f3 ?m3 ?k3 ?v3 ?w3 ?n3]
    case m3 => rfl
    case v3 => rfl
    case c3 => rfl
    case w3 => rfl
    case f3 => exact (hF _ rfl rfl rfl rfl rfl).2.2
    case k3 => exact Or.inr ⟨rfl, rfl⟩
    case n3 => simpa using toUword_natCast 4 (by decide)
    rfl
  · have hr : List.range 4 = [0, 1, 2, 3] := by decide
    rw [hr]
    simp only [List.map, EfficientResampling.columnsAppended, hpts]
    rfl
  · rw [hw]
    decide

end npt
